import Mathlib

/-!
Shallow embedding of the 8-channel relay/DMM acceptance-test program
(`relay.py`, `dmm.py`, `meas_runner.py`, `logger.py`, `gui_main.py`).

Python floats are modelled by `FVal`: a rational number, one of the two
infinities, or NaN.  IEEE comparison semantics (every comparison with NaN
is false) are translated into the Boolean order `fle` / `fgt`.
-/

/-- Model of a Python float: finite rational value, an infinity, or NaN. -/
inductive FVal where
  | num (q : ℚ)
  | posInf
  | negInf
  | nan
deriving DecidableEq, Repr

/-- `v != v` in Python is true exactly for NaN. -/
def FVal.isNan : FVal → Bool
  | .nan => true
  | _ => false

/-- The finite payload of an `FVal`, when there is one. -/
def FVal.toRat? : FVal → Option ℚ
  | .num q => some q
  | _ => none

/-- Python `x <= y` on floats: false whenever either side is NaN,
    `-inf` below everything else, `+inf` above everything else. -/
def fle : FVal → FVal → Bool
  | .nan, _ => false
  | _, .nan => false
  | .negInf, _ => true
  | _, .posInf => true
  | .posInf, _ => false
  | .num _, .negInf => false
  | .num a, .num b => decide (a ≤ b)

/-- Python `x > y` on floats (used by `max`): false whenever either side
    is NaN. -/
def fgt : FVal → FVal → Bool
  | .nan, _ => false
  | _, .nan => false
  | .negInf, _ => false
  | _, .posInf => false
  | .posInf, _ => true
  | .num _, .negInf => true
  | .num a, .num b => decide (b < a)

/-!  `meas_runner.py` line 79:
`result = (lower <= v <= upper) if (not (v != v)) else False`. -/

/-- Program-side pass/fail decision of `MeasurementRunner.run`. -/
def passCheck (lower upper v : FVal) : Bool :=
  if v.isNan then false else (fle lower v && fle v upper)

/-- Error marker stored with a row (`meas_runner.py` line 81):
`None if result else ("NaN" if (v != v) else None)`. -/
def rowError (result : Bool) (v : FVal) : Option String :=
  if result then none else if v.isNan then some "NaN" else none

/-!  `relay.py`, `RelayController.select_index`: three digital output lines
A/B/C (A = LSB, C = MSB).  The state of the three lines is explicit; an
out-of-range index raises `ValueError` before any line is touched. -/

/-- The boolean states of the three output lines A (LSB), B, C (MSB). -/
structure LineStates where
  a : Bool
  b : Bool
  c : Bool
deriving DecidableEq, Repr

/-- `RelayController.select_index(i)`: returns the new line states paired
    with `none`, or leaves the states untouched paired with the raised
    error message when `i` is outside `0..7` (the range guard runs before
    any `setState`). -/
def select_index (st : LineStates) (i : Int) : LineStates × Option String :=
  if ¬ (0 ≤ i ∧ i ≤ 7) then (st, some "index must be in 0..7")
  else
    ({ a := (i.toNat &&& 1) ≠ 0
       b := (i.toNat &&& 2) ≠ 0
       c := (i.toNat &&& 4) ≠ 0 }, none)

/-- Reconstruction `A + 2*B + 4*C` of an index from the line states. -/
def LineStates.reconstruct (st : LineStates) : Int :=
  (if st.a then 1 else 0) + 2 * (if st.b then 1 else 0)
    + 4 * (if st.c then 1 else 0)

/-!  `dmm.py`, `DmmClient.query_limit_fail`.  The class defines no method
named `query` (its methods are `connect`, `close`, `write`, `read_line`,
`configure_dc_voltage`, `configure_limits`, `clear_limits`,
`query_limit_fail`, `measure_dc_voltage`, `measure_dc_voltage_once`), so
every evaluation of `self.query(...)` raises `AttributeError` at attribute
lookup, before anything is sent to the device. -/

/-- Names of the methods the class `DmmClient` defines (`dmm.py`). -/
def dmmClientMethods : List String :=
  ["__init__", "connect", "close", "write", "read_line",
   "configure_dc_voltage", "configure_limits", "clear_limits",
   "query_limit_fail", "measure_dc_voltage", "measure_dc_voltage_once"]

/-- Evaluation of `self.query(cmd)` inside `DmmClient`: attribute lookup
    of a name that is not among the class's methods raises
    `AttributeError` regardless of the command and of the connection
    state.  The `Int` result models `int(float(reply))` on success. -/
def dmmSelfQuery (cmd : String) : Except String Int :=
  if "query" ∈ dmmClientMethods then .ok 0
  else .error "AttributeError: DmmClient object has no attribute query"

/-- `DmmClient.query_limit_fail` (`dmm.py` lines 122-131): the primary
    `CALC:LIM:FAIL?` attempt is wrapped in `try/except Exception`; the
    fallback reads `STAT:QUES:COND?` and tests bits 11 (2048) and 12
    (4096), outside any handler. -/
def query_limit_fail : Except String Bool :=
  match (dmmSelfQuery "CALC:LIM:FAIL?").map (fun n => n == 1) with
  | .ok b => .ok b
  | .error _ =>
    match dmmSelfQuery "STAT:QUES:COND?" with
    | .ok cond => .ok (decide (cond.toNat &&& 2048 ≠ 0)
                        || decide (cond.toNat &&& 4096 ≠ 0))
    | .error e => .error e

/-- What `query_limit_fail` was evidently meant to do once a `query`
    method exists.  Modelled from the spec: a primary-query outcome
    (`int(float(...))` of the `CALC:LIM:FAIL?` reply, or a failure) and a
    fallback outcome for `STAT:QUES:COND?`; any primary failure is caught
    and the questionable-status condition bits 11/12 decide the result. -/
def query_limit_fail_intended (primary cond : Except String Int) :
    Except String Bool :=
  match primary.map (fun n => n == 1) with
  | .ok b => .ok b
  | .error _ =>
    match cond with
    | .ok c => .ok (decide (c.toNat &&& 2048 ≠ 0)
                     || decide (c.toNat &&& 4096 ≠ 0))
    | .error e => .error e

/-!  `meas_runner.py`, `MeasurementRunner.run`.  The device interactions
are abstracted by an environment giving, per channel, the outcome of
`relay.select_index` (any exception is caught at the channel boundary),
of `dmm.configure_limits` (only `DmmError` is caught) and of the measure
call (only `DmmError` is caught; on it the value becomes NaN), plus the
outcome of the initial `configure_dc_voltage` and of `logger.save_csv`.
The run is recorded as the list of rows appended to the `Logger` together
with a trace of events (signal emissions and control-flow milestones). -/

/-- One record appended by `Logger.add_row`. -/
structure Row where
  index : Nat
  value : FVal
  lower : FVal
  upper : FVal
  result : Bool
  error : Option String
deriving DecidableEq, Repr

/-- Outcome of a call that may raise: normal return, a `DmmError`, or an
    exception of any other class. -/
inductive StepOutcome where
  | ok
  | dmmErr (msg : String)
  | otherExc (msg : String)
deriving DecidableEq, Repr

/-- Outcome of the measure call (`measure_dc_voltage` or
    `measure_dc_voltage_once`): a value, a `DmmError`, or another
    exception. -/
inductive MeasOutcome where
  | ok (v : FVal)
  | dmmErr (msg : String)
  | otherExc (msg : String)
deriving DecidableEq, Repr

/-- The structured payloads of `self.error.emit`. -/
inductive ErrMsg where
  | selectFailed (i : Nat) (ex : String)
  | measureFailed (i : Nat) (ex : String)
  | runnerUnexpected (ex : String)
deriving DecidableEq, Repr

/-- The structured payloads of `self.status.emit`. -/
inductive StatusMsg where
  | scanning (i : Nat)
  | pointDone (i : Nat)
deriving DecidableEq, Repr

/-- Observable events of one `run` invocation, in program order.
    `selectResolved i` marks the end of the `select_index` try/except,
    `measureResolved i v` the end of the measure try/except with the
    value `v` that survives it. -/
inductive Event where
  | statusEmit (s : StatusMsg)
  | errorEmit (m : ErrMsg)
  | selectResolved (i : Nat)
  | measureResolved (i : Nat) (v : FVal)
  | rowAppended (r : Row)
  | rowMeasuredEmit (i : Nat) (v lower upper : FVal) (result : Bool)
  | finishedEmit (path : String)
  | dmmCloseAttempt
  | relayCloseAttempt
deriving DecidableEq, Repr

/-- Per-channel device behaviour plus the two sweep-level outcomes. -/
structure Env where
  selectOutcome : Nat → Option String
  configLimitsOutcome : Nat → StepOutcome
  measureOutcome : Nat → MeasOutcome
  configureDcOutcome : Option String
  saveCsvOutcome : Except String String

/-- The sweep parameters `run` reads (constructor arguments). -/
structure Config where
  use_meas_once : Bool
  use_inst_limits : Bool
  limits : List (FVal × FVal)

/-- Result of the body of one loop iteration: a row together with the
    events it produced, or an uncaught exception (with the events before
    it). -/
inductive VisitResult where
  | ok (r : Row) (evs : List Event)
  | abort (evs : List Event) (msg : String)
deriving DecidableEq, Repr

/-- Events of the select step for channel `i`: the scanning status emit,
    the error emit when `select_index` raised, and the resolution
    milestone. -/
def selEvents (env : Env) (i : Nat) : List Event :=
  [Event.statusEmit (.scanning i)] ++
    (match env.selectOutcome i with
     | none => []
     | some ex => [Event.errorEmit (.selectFailed i ex)]) ++
    [Event.selectResolved i]

/-- Tail of a loop iteration once the value `v` for channel `i` is
    settled: pass/fail decision, `add_row`, `rowMeasured` emit, status
    emit. -/
def finishVisit (i : Nat) (lower upper v : FVal) (evs : List Event) :
    VisitResult :=
  let result := passCheck lower upper v
  let row : Row :=
    { index := i, value := v, lower := lower, upper := upper,
      result := result, error := rowError result v }
  VisitResult.ok row
    (evs ++ [Event.measureResolved i v, Event.rowAppended row,
      Event.rowMeasuredEmit i v lower upper result,
      Event.statusEmit (.pointDone i)])

/-- One iteration of the `for i in range(total)` loop of
    `MeasurementRunner.run`: status emit, select (all exceptions
    caught), `lower, upper = self.limits[i]` (IndexError aborts),
    optional `configure_limits` (`DmmError` only logged, anything else
    aborts), measure (`DmmError` caught, value becomes NaN), pass/fail
    decision, `add_row`, `rowMeasured` emit, status emit. -/
def visit (env : Env) (cfg : Config) (i : Nat) : VisitResult :=
  match cfg.limits.get? i with
  | none => VisitResult.abort (selEvents env i) "IndexError: limits"
  | some (lower, upper) =>
    match (if cfg.use_inst_limits then env.configLimitsOutcome i
           else StepOutcome.ok) with
    | .otherExc ex => VisitResult.abort (selEvents env i) ex
    | _ =>
      match env.measureOutcome i with
      | .ok v => finishVisit i lower upper v (selEvents env i)
      | .dmmErr ex =>
        finishVisit i lower upper FVal.nan
          (selEvents env i ++ [Event.errorEmit (.measureFailed i ex)])
      | .otherExc ex => VisitResult.abort (selEvents env i) ex

/-- The loop over a list of channel indices: accumulates appended rows
    and events; an uncaught exception stops the loop and is reported. -/
def runChannels (env : Env) (cfg : Config) :
    List Nat → List Row × List Event × Option String
  | [] => ([], [], none)
  | i :: rest =>
    match visit env cfg i with
    | .abort evs msg => ([], evs, some msg)
    | .ok r evs =>
      match runChannels env cfg rest with
      | (rows, evs2, exc) => (r :: rows, evs ++ evs2, exc)

/-- Result of one `run` invocation: rows appended to the logger, event
    trace, and whether the sweep ended on the outer exception handler. -/
structure RunResult where
  rows : List Row
  events : List Event
  aborted : Bool
deriving DecidableEq, Repr

/-- `MeasurementRunner.run`: optional `configure_dc_voltage`, the
    8-channel loop, `save_csv` + `finished` emit on success, the outer
    exception handler emitting a runner error, and the `finally` block
    that always asks both the DMM and the relay to close (each wrapped in
    its own try/except). -/
def MeasurementRunner.run (env : Env) (cfg : Config) : RunResult :=
  let body : List Row × List Event × Bool :=
    match (if cfg.use_meas_once then none else env.configureDcOutcome) with
    | some ex => ([], [Event.errorEmit (.runnerUnexpected ex)], true)
    | none =>
      match runChannels env cfg (List.range 8) with
      | (rows, evs, some ex) =>
        (rows, evs ++ [Event.errorEmit (.runnerUnexpected ex)], true)
      | (rows, evs, none) =>
        match env.saveCsvOutcome with
        | .ok path => (rows, evs ++ [Event.finishedEmit path], false)
        | .error ex =>
          (rows, evs ++ [Event.errorEmit (.runnerUnexpected ex)], true)
  { rows := body.1
    events := body.2.1 ++ [Event.dmmCloseAttempt, Event.relayCloseAttempt]
    aborted := body.2.2 }

/-!  `logger.py`, `Logger.save_csv` summary section.  The data rows are
followed by: Total (row count), Fail (count of rows whose result is
false), Max, Min, Average, Std Dev (each over the values `v` with
`v == v`, i.e. the non-NaN values; the empty string when there are none)
and a constant CPK row.  `statistics.mean` and `statistics.pstdev` do
exact fraction arithmetic on finite floats and raise `OverflowError` on
an infinite input, so the numeric entries are modelled as
`Except String (Option ℚ)`: `.ok none` is the blank entry. -/

/-- `values = [v for (_, v, _, _, _, _) in self.rows if v == v]`. -/
def summaryValues (rows : List Row) : List FVal :=
  rows.filterMap (fun r => if r.value.isNan then none else some r.value)

/-- `total = len(self.rows)`. -/
def summaryTotal (rows : List Row) : Nat := rows.length

/-- `fail = sum(1 for (_, _, _, _, res, _) in self.rows if not res)`. -/
def summaryFail (rows : List Row) : Nat :=
  (rows.map (fun r => if r.result then 0 else 1)).sum

/-- The per-item float-to-`Fraction` conversion the statistics routines
    perform: every value must be finite, otherwise the conversion
    raises (`none`). -/
def allRats : List FVal → Option (List ℚ)
  | [] => some []
  | v :: vs =>
    match v.toRat?, allRats vs with
    | some q, some qs => some (q :: qs)
    | _, _ => none

/-- `statistics.mean`: exact rational mean; `StatisticsError` on an empty
    list, `OverflowError` when a value is infinite (float to `Fraction`
    conversion). -/
def pyMean (vs : List FVal) : Except String ℚ :=
  if vs.isEmpty then .error "StatisticsError: mean of empty data"
  else
    match allRats vs with
    | some qs => .ok (qs.sum / qs.length)
    | none => .error "OverflowError: cannot convert infinity"

/-- `statistics.pstdev` squared, i.e. the population variance
    `sum((x - mean)^2) / n` computed exactly. -/
def pyPVariance (vs : List FVal) : Except String ℚ :=
  if vs.isEmpty then .error "StatisticsError: pstdev of empty data"
  else
    match allRats vs with
    | some qs =>
      .ok (((qs.map (fun x => (x - qs.sum / qs.length) ^ 2)).sum) / qs.length)
    | none => .error "OverflowError: cannot convert infinity"

/-- `mx = max(values) if values else ''` (Python `max` keeps the current
    candidate unless the next item compares strictly greater). -/
def summaryMax (rows : List Row) : Option FVal :=
  match summaryValues rows with
  | [] => none
  | v :: vs => some (vs.foldl (fun acc x => if fgt x acc then x else acc) v)

/-- `mn = min(values) if values else ''`. -/
def summaryMin (rows : List Row) : Option FVal :=
  match summaryValues rows with
  | [] => none
  | v :: vs => some (vs.foldl (fun acc x => if fgt acc x then x else acc) v)

/-- `avg = mean(values) if values else ''`. -/
def summaryAvg (rows : List Row) : Except String (Option ℚ) :=
  if (summaryValues rows).isEmpty then .ok none
  else (pyMean (summaryValues rows)).map some

/-- `sd = pstdev(values) if values else ''`, reported as the square of
    the persisted Std Dev entry (the variance), which determines the
    entry as its nonnegative square root. -/
def summaryStdSq (rows : List Row) : Except String (Option ℚ) :=
  if (summaryValues rows).isEmpty then .ok none
  else (pyPVariance (summaryValues rows)).map some

/-!  Specification-side statistics, written from the spec's words
("arithmetic mean of the non-NaN recorded values", "their population
standard deviation"), to be compared with the code-side summary. -/

/-- The rational payloads of the non-NaN recorded values. -/
def nonNanRats (rows : List Row) : List ℚ :=
  rows.filterMap (fun r => r.value.toRat?)

/-- Arithmetic mean. -/
def specMean (qs : List ℚ) : ℚ := qs.sum / qs.length

/-- Population variance in the moment form `E[x^2] - (E[x])^2`; the
    population standard deviation is its square root. -/
def specPopVar (qs : List ℚ) : ℚ :=
  (qs.map (fun x => x ^ 2)).sum / qs.length - (qs.sum / qs.length) ^ 2

/-!  `gui_main.py`, `MainWindow.limits_from_table`: for each of the 8
table rows, `float(...)` of the lower and upper cell texts inside one
`try`; any parse failure replaces the pair by `(-inf, inf)`.  The parse
outcome of each cell is abstracted as an `Option FVal`. -/

/-- `MainWindow.limits_from_table`, with `cellLow i` / `cellUp i` the
    outcome of `float(self.table.item(i, col).text())` for row `i`. -/
def limits_from_table (cellLow cellUp : Nat → Option FVal) :
    List (FVal × FVal) :=
  (List.range 8).map fun i =>
    match cellLow i, cellUp i with
    | some l, some u => (l, u)
    | _, _ => (FVal.negInf, FVal.posInf)

/-!  Close operations.  `DmmClient.close` (`dmm.py` lines 54-60): if a
socket exists, close it inside try/except-pass and set `_sock = None`;
`RelayController.close` (`relay.py`): no-op in simulate mode, otherwise
close the three channels inside try/except-pass.  Both are total
functions of the connection state — the models carry a flag saying
whether the underlying close call raises, and the result never
propagates it. -/

/-- `DmmClient.close` acting on `self._sock` (`some` = an open socket).
    `sockCloseRaises` says whether `self._sock.close()` raises; the
    exception is swallowed and `_sock` is set to `None` regardless. -/
def DmmClient.close (sockCloseRaises : Bool) :
    Option Unit → Option Unit
  | none => none
  | some _ => if sockCloseRaises then none else none

/-- State of a `RelayController` relevant to `close`: simulate flag and
    whether the three channels are open. -/
structure RelayConn where
  simulate : Bool
  chOpen : Bool
deriving DecidableEq, Repr

/-- `RelayController.close`: returns immediately in simulate mode;
    otherwise closes the three channels, swallowing any exception
    (`chCloseRaises`) raised midway. -/
def RelayController.close (chCloseRaises : Bool) (st : RelayConn) :
    RelayConn :=
  if st.simulate then st
  else if chCloseRaises then { st with chOpen := st.chOpen }
  else { st with chOpen := false }

/-- The value that survives the measure try/except for channel `i`:
    the measured value, or NaN when the `DmmError` handler ran. -/
def visitValue (env : Env) (i : Nat) : FVal :=
  match env.measureOutcome i with
  | .ok v => v
  | _ => FVal.nan

/-- The row a successful loop iteration appends for channel `i`
    (meaningful whenever `visit` returns `.ok`). -/
def visitRow (env : Env) (cfg : Config) (i : Nat) : Row :=
  match cfg.limits.get? i with
  | none => { index := i, value := FVal.nan, lower := FVal.nan,
              upper := FVal.nan, result := false, error := none }
  | some (lower, upper) =>
    let v := visitValue env i
    { index := i, value := v, lower := lower, upper := upper,
      result := passCheck lower upper v,
      error := rowError (passCheck lower upper v) v }

/-- The environment obtained from `env` by making the measure call for
    channel `i` raise `DmmError ex`, all other behaviour unchanged. -/
def Env.withMeasFail (env : Env) (i : Nat) (ex : String) : Env :=
  { env with measureOutcome := Function.update env.measureOutcome i (.dmmErr ex) }

/-- The environment obtained from `env` by replacing the per-channel
    `configure_limits` behaviour wholesale. -/
def Env.withConfigLimits (env : Env) (f : Nat → StepOutcome) : Env :=
  { env with configLimitsOutcome := f }

/-- A benign environment: every device call succeeds and every
    measurement reads 1 V. -/
def envOk : Env :=
  { selectOutcome := fun _ => none
    configLimitsOutcome := fun _ => StepOutcome.ok
    measureOutcome := fun _ => MeasOutcome.ok (.num 1)
    configureDcOutcome := none
    saveCsvOutcome := .ok "logs/20250101_000000.csv" }

/-- A sweep configuration with bounds `(-10, 10)` on all 8 channels. -/
def cfg8 : Config :=
  { use_meas_once := false
    use_inst_limits := false
    limits := List.replicate 8 (FVal.num (-10), FVal.num 10) }

/-- Concrete recorded rows used to instantiate the summary statements:
    two finite values and one NaN failure. -/
def rowsW : List Row :=
  [ { index := 0, value := .num 3, lower := .num 0, upper := .num 10,
      result := true, error := none },
    { index := 1, value := .nan, lower := .num 0, upper := .num 10,
      result := false, error := some "NaN" },
    { index := 2, value := .num 5, lower := .num 6, upper := .num 10,
      result := false, error := none } ]

/-- The error emission the `DmmError` handler of the measure step
    produces for channel `i` (empty when the measurement succeeded). -/
def measErrEvents (env : Env) (i : Nat) : List Event :=
  match env.measureOutcome i with
  | .dmmErr ex => [Event.errorEmit (.measureFailed i ex)]
  | _ => []

/-- The events of a loop iteration that completes without an uncaught
    exception (the `.ok` case of `visit`). -/
def visitEvs (env : Env) (cfg : Config) (i : Nat) : List Event :=
  selEvents env i ++ measErrEvents env i ++
    [Event.measureResolved i (visitValue env i),
     Event.rowAppended (visitRow env cfg i),
     Event.rowMeasuredEmit i (visitValue env i) (visitRow env cfg i).lower
       (visitRow env cfg i).upper (visitRow env cfg i).result,
     Event.statusEmit (.pointDone i)]

/-- The row the benign environment's first loop iteration appends. -/
def rowOkW : Row :=
  { index := 0, value := .num 1, lower := .num (-10), upper := .num 10,
    result := true, error := none }

/-- The events of the benign environment's first loop iteration. -/
def evsOkW : List Event :=
  [Event.statusEmit (.scanning 0), Event.selectResolved 0,
   Event.measureResolved 0 (.num 1), Event.rowAppended rowOkW,
   Event.rowMeasuredEmit 0 (.num 1) (.num (-10)) (.num 10) true,
   Event.statusEmit (.pointDone 0)]

/-- Channel `i` has bounds available and its device interactions resolve
    at the channel boundary: `configure_limits` and the measure call
    raise nothing the loop body's handlers would not catch. -/
def chanOk (env : Env) (cfg : Config) (i : Nat) : Prop :=
  (∃ lo up, cfg.limits.get? i = some (lo, up)) ∧
  (∀ e, env.configLimitsOutcome i ≠ .otherExc e) ∧
  (∀ e, env.measureOutcome i ≠ .otherExc e)

/-- The trace-soundness predicate for C1: every `rowAppended` event in
    `tr` is preceded (within `avail ++` the part of `tr` before it) by
    the select-resolution and a measure-resolution milestone of the same
    channel. -/
def guardedFrom (avail tr : List Event) : Prop :=
  ∀ pre r post, tr = pre ++ Event.rowAppended r :: post →
    Event.selectResolved r.index ∈ avail ++ pre ∧
    ∃ v, Event.measureResolved r.index v ∈ avail ++ pre

/-! Trace lemmas for the append-only-after-resolution invariant. -/

theorem guardedFrom_nil (avail : List Event) : guardedFrom avail [] := by
  intro pre r post h
  exact absurd h (by simp)

theorem guardedFrom_of_no_row (avail tr : List Event)
    (h : ∀ r, Event.rowAppended r ∉ tr) : guardedFrom avail tr := by
  intro pre r post hsplit
  exact absurd (hsplit ▸ List.mem_append_right pre (List.mem_cons_self _ _))
    (h r)

theorem guardedFrom_shift (avail tr : List Event) (e : Event)
    (h : guardedFrom avail (e :: tr)) : guardedFrom (avail ++ [e]) tr := by
  intro pre r post hsplit
  have h2 := h (e :: pre) r post (by rw [hsplit]; rfl)
  rw [List.append_assoc, List.singleton_append]
  exact h2

theorem guardedFrom_cons_other (avail tr : List Event) (e : Event)
    (hne : ∀ r, e ≠ Event.rowAppended r)
    (h : guardedFrom (avail ++ [e]) tr) : guardedFrom avail (e :: tr) := by
  intro pre r post hsplit
  cases pre with
  | nil =>
    simp only [List.nil_append] at hsplit
    exact absurd (List.head_eq_of_cons_eq hsplit) (hne r)
  | cons p pre' =>
    obtain ⟨hp, htr⟩ := List.cons_eq_cons.mp hsplit
    subst hp
    have h2 := h pre' r post htr
    rwa [List.append_assoc, List.singleton_append] at h2

theorem guardedFrom_cons_row (avail tr : List Event) (r0 : Row)
    (hsel : Event.selectResolved r0.index ∈ avail)
    (hmeas : ∃ v, Event.measureResolved r0.index v ∈ avail)
    (h : guardedFrom (avail ++ [Event.rowAppended r0]) tr) :
    guardedFrom avail (Event.rowAppended r0 :: tr) := by
  intro pre r post hsplit
  cases pre with
  | nil =>
    simp only [List.nil_append] at hsplit
    have hr : r0 = r := Event.rowAppended.inj (List.head_eq_of_cons_eq hsplit)
    subst hr
    simpa using ⟨hsel, hmeas⟩
  | cons p pre' =>
    obtain ⟨hp, htr⟩ := List.cons_eq_cons.mp hsplit
    subst hp
    have h2 := h pre' r post htr
    rwa [List.append_assoc, List.singleton_append] at h2

theorem guardedFrom_append (t1 : List Event) :
    ∀ (avail t2 : List Event), guardedFrom avail t1 →
      guardedFrom (avail ++ t1) t2 → guardedFrom avail (t1 ++ t2) := by
  induction t1 with
  | nil =>
    intro avail t2 _ h2
    simpa using h2
  | cons e t1 ih =>
    intro avail t2 h1 h2
    have h1s : guardedFrom (avail ++ [e]) t1 := guardedFrom_shift avail t1 e h1
    have h2s : guardedFrom ((avail ++ [e]) ++ t1) t2 := by
      rwa [List.append_assoc, List.singleton_append]
    have hmain : guardedFrom (avail ++ [e]) (t1 ++ t2) := ih _ _ h1s h2s
    by_cases he : ∃ r0, e = Event.rowAppended r0
    · obtain ⟨r0, rfl⟩ := he
      have h0 := h1 [] r0 t1 rfl
      simp only [List.append_nil] at h0
      exact guardedFrom_cons_row avail (t1 ++ t2) r0 h0.1 h0.2 hmain
    · exact guardedFrom_cons_other avail (t1 ++ t2) e
        (fun r hr => he ⟨r, hr⟩) hmain

/-! Shape lemmas for one loop iteration. -/

theorem visitRow_index (env : Env) (cfg : Config) (i : Nat) :
    (visitRow env cfg i).index = i := by
  unfold visitRow
  cases h : cfg.limits.get? i with
  | none => rfl
  | some p => cases p; rfl

theorem selectResolved_mem_selEvents (env : Env) (i : Nat) :
    Event.selectResolved i ∈ selEvents env i := by
  unfold selEvents
  cases env.selectOutcome i <;> simp

theorem no_row_selEvents (env : Env) (i : Nat) (r : Row) :
    Event.rowAppended r ∉ selEvents env i := by
  unfold selEvents
  cases env.selectOutcome i <;> simp

theorem no_row_measErrEvents (env : Env) (i : Nat) (r : Row) :
    Event.rowAppended r ∉ measErrEvents env i := by
  unfold measErrEvents
  cases env.measureOutcome i <;> simp

theorem visit_ok_eq (env : Env) (cfg : Config) (i : Nat) (l u : FVal)
    (hl : cfg.limits.get? i = some (l, u))
    (hc : ∀ e, env.configLimitsOutcome i ≠ .otherExc e)
    (hm : ∀ e, env.measureOutcome i ≠ .otherExc e) :
    visit env cfg i = .ok (visitRow env cfg i) (visitEvs env cfg i) := by
  have hc2 : ∀ e, (if cfg.use_inst_limits then env.configLimitsOutcome i
      else StepOutcome.ok) ≠ StepOutcome.otherExc e := by
    intro e
    split
    · exact hc e
    · intro h; exact StepOutcome.noConfusion h
  unfold visit finishVisit visitEvs visitRow visitValue measErrEvents
  rw [hl]
  rcases hco : (if cfg.use_inst_limits then env.configLimitsOutcome i
      else StepOutcome.ok) with _ | m | m
  · rcases hmo : env.measureOutcome i with v | ex | ex
    · simp
    · simp
    · exact absurd hmo (hm ex)
  · rcases hmo : env.measureOutcome i with v | ex | ex
    · simp
    · simp
    · exact absurd hmo (hm ex)
  · exact absurd hco (hc2 m)

theorem visit_abort_evs (env : Env) (cfg : Config) (i : Nat)
    (evs : List Event) (msg : String)
    (h : visit env cfg i = .abort evs msg) : evs = selEvents env i := by
  unfold visit at h
  rcases hl : cfg.limits.get? i with _ | ⟨l, u⟩ <;> rw [hl] at h
  · exact (VisitResult.abort.inj h).1.symm
  · rcases hco : (if cfg.use_inst_limits then env.configLimitsOutcome i
        else StepOutcome.ok) with _ | m | m <;> simp only [hco] at h
    · rcases hmo : env.measureOutcome i with v | ex | ex <;>
        simp only [hmo] at h
      · exact absurd h (by unfold finishVisit; simp)
      · exact absurd h (by unfold finishVisit; simp)
      · exact (VisitResult.abort.inj h).1.symm
    · rcases hmo : env.measureOutcome i with v | ex | ex <;>
        simp only [hmo] at h
      · exact absurd h (by unfold finishVisit; simp)
      · exact absurd h (by unfold finishVisit; simp)
      · exact (VisitResult.abort.inj h).1.symm
    · exact (VisitResult.abort.inj h).1.symm

theorem guardedFrom_visitEvs (env : Env) (cfg : Config) (i : Nat)
    (avail : List Event) : guardedFrom avail (visitEvs env cfg i) := by
  unfold visitEvs
  rw [List.append_assoc]
  apply guardedFrom_append
  · exact guardedFrom_of_no_row _ _ (fun r => no_row_selEvents env i r)
  apply guardedFrom_append
  · exact guardedFrom_of_no_row _ _ (fun r => no_row_measErrEvents env i r)
  apply guardedFrom_cons_other _ _ _ (fun r h => Event.noConfusion h)
  apply guardedFrom_cons_row
  · rw [visitRow_index]
    have hs := selectResolved_mem_selEvents env i
    simp only [List.mem_append]
    tauto
  · refine ⟨visitValue env i, ?_⟩
    rw [visitRow_index]
    simp
  apply guardedFrom_cons_other _ _ _ (fun r h => Event.noConfusion h)
  apply guardedFrom_cons_other _ _ _ (fun r h => Event.noConfusion h)
  exact guardedFrom_nil _

theorem guardedFrom_finish (avail pre : List Event) (i : Nat) (l u v : FVal)
    (hnorow : ∀ r, Event.rowAppended r ∉ pre)
    (hsel : Event.selectResolved i ∈ pre) (r : Row) (evs : List Event)
    (h : finishVisit i l u v pre = .ok r evs) : guardedFrom avail evs := by
  unfold finishVisit at h
  obtain ⟨hr, hevs⟩ := VisitResult.ok.inj h
  subst hevs
  apply guardedFrom_append
  · exact guardedFrom_of_no_row _ _ hnorow
  apply guardedFrom_cons_other _ _ _ (fun r h => Event.noConfusion h)
  apply guardedFrom_cons_row
  · show Event.selectResolved i ∈ _
    simp only [List.mem_append]
    tauto
  · exact ⟨v, by simp⟩
  apply guardedFrom_cons_other _ _ _ (fun r h => Event.noConfusion h)
  apply guardedFrom_cons_other _ _ _ (fun r h => Event.noConfusion h)
  exact guardedFrom_nil _

theorem visit_ok_guarded (env : Env) (cfg : Config) (i : Nat) (r : Row)
    (evs : List Event) (h : visit env cfg i = .ok r evs)
    (avail : List Event) : guardedFrom avail evs := by
  have hsel1 : Event.selectResolved i ∈ selEvents env i :=
    selectResolved_mem_selEvents env i
  have hnr1 : ∀ r0, Event.rowAppended r0 ∉ selEvents env i :=
    fun r0 => no_row_selEvents env i r0
  unfold visit at h
  rcases hl : cfg.limits.get? i with _ | ⟨lo, up⟩ <;> rw [hl] at h
  · exact absurd h (by simp)
  · rcases hco : (if cfg.use_inst_limits then env.configLimitsOutcome i
        else StepOutcome.ok) with _ | m | m <;> simp only [hco] at h
    · rcases hmo : env.measureOutcome i with v | ex | ex <;>
        simp only [hmo] at h
      · exact guardedFrom_finish avail _ i lo up v hnr1 hsel1 r evs h
      · refine guardedFrom_finish avail _ i lo up FVal.nan ?_ ?_ r evs h
        · intro r0
          simp only [List.mem_append]
          rintro (h1 | h1)
          · exact hnr1 r0 h1
          · simp at h1
        · exact List.mem_append_left _ hsel1
      · exact absurd h (by simp)
    · rcases hmo : env.measureOutcome i with v | ex | ex <;>
        simp only [hmo] at h
      · exact guardedFrom_finish avail _ i lo up v hnr1 hsel1 r evs h
      · refine guardedFrom_finish avail _ i lo up FVal.nan ?_ ?_ r evs h
        · intro r0
          simp only [List.mem_append]
          rintro (h1 | h1)
          · exact hnr1 r0 h1
          · simp at h1
        · exact List.mem_append_left _ hsel1
      · exact absurd h (by simp)
    · exact absurd h (by simp)

theorem runChannels_guarded (env : Env) (cfg : Config) (l : List Nat) :
    ∀ avail, guardedFrom avail (runChannels env cfg l).2.1 := by
  induction l with
  | nil =>
    intro avail
    exact guardedFrom_nil avail
  | cons i l ih =>
    intro avail
    rcases hv : visit env cfg i with ⟨r, evs⟩ | ⟨evs, msg⟩
    · rcases hrc : runChannels env cfg l with ⟨rows, evs2, exc⟩
      have hevs : (runChannels env cfg (i :: l)).2.1 = evs ++ evs2 := by
        simp [runChannels, hv, hrc]
      rw [hevs]
      apply guardedFrom_append
      · exact visit_ok_guarded env cfg i r evs hv avail
      · have := ih (avail ++ evs)
        rw [hrc] at this
        exact this
    · have hevs : (runChannels env cfg (i :: l)).2.1 = evs := by
        simp [runChannels, hv]
      rw [hevs, visit_abort_evs env cfg i evs msg hv]
      exact guardedFrom_of_no_row _ _ (fun r => no_row_selEvents env i r)

theorem run_events_guarded (env : Env) (cfg : Config) :
    guardedFrom [] (MeasurementRunner.run env cfg).events := by
  unfold MeasurementRunner.run
  rcases hdc : (if cfg.use_meas_once then none else env.configureDcOutcome)
      with _ | ex
  · rcases hrc : runChannels env cfg (List.range 8) with ⟨rows, evs, exc⟩
    have hg : ∀ avail, guardedFrom avail evs := by
      intro avail
      have := runChannels_guarded env cfg (List.range 8) avail
      rwa [hrc] at this
    rcases exc with _ | ex2
    · rcases hsv : env.saveCsvOutcome with path | ex3 <;>
        · simp only [hdc, hrc, hsv]
          rw [List.append_assoc]
          apply guardedFrom_append _ _ _ (hg [])
          exact guardedFrom_of_no_row _ _ (fun r => by simp)
    · simp only [hdc, hrc]
      rw [List.append_assoc]
      apply guardedFrom_append _ _ _ (hg [])
      exact guardedFrom_of_no_row _ _ (fun r => by simp)
  · simp only [hdc]
    exact guardedFrom_of_no_row _ _ (fun r => by simp)

/-! Row-level lemmas: what the loop appends. -/

theorem visit_ok_of_chanOk (env : Env) (cfg : Config) (i : Nat)
    (h : chanOk env cfg i) :
    visit env cfg i = .ok (visitRow env cfg i) (visitEvs env cfg i) := by
  obtain ⟨⟨lo, up, hl⟩, hc, hm⟩ := h
  exact visit_ok_eq env cfg i lo up hl hc hm

theorem runChannels_rows (env : Env) (cfg : Config) (l : List Nat)
    (h : ∀ i ∈ l, chanOk env cfg i) :
    (runChannels env cfg l).1 = l.map (visitRow env cfg) ∧
    (runChannels env cfg l).2.2 = none := by
  induction l with
  | nil => exact ⟨rfl, rfl⟩
  | cons i l ih =>
    have hv := visit_ok_of_chanOk env cfg i (h i (List.mem_cons_self i l))
    obtain ⟨ih1, ih2⟩ := ih (fun j hj => h j (List.mem_cons_of_mem i hj))
    rcases hrc : runChannels env cfg l with ⟨rows, evs2, exc⟩
    rw [hrc] at ih1 ih2
    simp only at ih1 ih2
    constructor
    · simp [runChannels, hv, hrc, ih1]
    · simp [runChannels, hv, hrc, ih2]

theorem runChannels_event_mem (env : Env) (cfg : Config) (l : List Nat)
    (i : Nat) (hi : i ∈ l) (hok : ∀ j ∈ l, chanOk env cfg j) (e : Event)
    (he : e ∈ visitEvs env cfg i) : e ∈ (runChannels env cfg l).2.1 := by
  induction l with
  | nil => cases hi
  | cons j l ih =>
    have hv := visit_ok_of_chanOk env cfg j (hok j (List.mem_cons_self j l))
    rcases hrc : runChannels env cfg l with ⟨rows, evs2, exc⟩
    have hevs : (runChannels env cfg (j :: l)).2.1 = visitEvs env cfg j ++ evs2 := by
      simp [runChannels, hv, hrc]
    rw [hevs]
    rcases List.mem_cons.mp hi with rfl | hi2
    · exact List.mem_append_left _ he
    · refine List.mem_append_right _ ?_
      have := ih hi2 (fun k hk => hok k (List.mem_cons_of_mem j hk))
      rwa [hrc] at this

theorem run_rows_eq (env : Env) (cfg : Config)
    (hdc : cfg.use_meas_once = true ∨ env.configureDcOutcome = none)
    (h : ∀ i ∈ List.range 8, chanOk env cfg i) :
    (MeasurementRunner.run env cfg).rows
      = (List.range 8).map (visitRow env cfg) := by
  obtain ⟨h1, h2⟩ := runChannels_rows env cfg (List.range 8) h
  have hdc2 : (if cfg.use_meas_once then none else env.configureDcOutcome)
      = none := by
    rcases hdc with h | h <;> simp [h]
  unfold MeasurementRunner.run
  rcases hrc : runChannels env cfg (List.range 8) with ⟨rows, evs, exc⟩
  rw [hrc] at h1 h2
  simp only at h1 h2
  subst h2
  rcases hsv : env.saveCsvOutcome with path | ex <;> simp [hdc2, hrc, hsv, h1]

theorem run_event_mem (env : Env) (cfg : Config)
    (hdc : cfg.use_meas_once = true ∨ env.configureDcOutcome = none)
    (h : ∀ i ∈ List.range 8, chanOk env cfg i) (i : Nat)
    (hi : i ∈ List.range 8) (e : Event) (he : e ∈ visitEvs env cfg i) :
    e ∈ (MeasurementRunner.run env cfg).events := by
  have hmem := runChannels_event_mem env cfg (List.range 8) i hi h e he
  have hdc2 : (if cfg.use_meas_once then none else env.configureDcOutcome)
      = none := by
    rcases hdc with h' | h' <;> simp [h']
  unfold MeasurementRunner.run
  rcases hrc : runChannels env cfg (List.range 8) with ⟨rows, evs, exc⟩
  rw [hrc] at hmem
  simp only at hmem
  rcases exc with _ | ex2
  · rcases hsv : env.saveCsvOutcome with path | ex3 <;>
      simp [hdc2, hrc, hsv, hmem]
  · simp [hdc2, hrc, hmem]

theorem chanOk_of_bounds (env : Env) (cfg : Config)
    (hlim : 8 ≤ cfg.limits.length)
    (hcl : ∀ i, i < 8 → ∀ e, env.configLimitsOutcome i ≠ .otherExc e)
    (hm : ∀ i, i < 8 → ∀ e, env.measureOutcome i ≠ .otherExc e) :
    ∀ i ∈ List.range 8, chanOk env cfg i := by
  intro i hi
  have hi8 : i < 8 := List.mem_range.mp hi
  have hlen : i < cfg.limits.length := lt_of_lt_of_le hi8 hlim
  refine ⟨?_, hcl i hi8, hm i hi8⟩
  rcases hg : cfg.limits.get? i with _ | p
  · exact absurd (List.get?_eq_none.mp hg) (by omega)
  · rcases p with ⟨lo, up⟩
    exact ⟨lo, up, rfl⟩


/-- C1: in a sweep whose setup resolves and whose per-channel device
    interactions raise at most what the channel boundary catches
    (anything from selection, `DmmError` from limit configuration and
    measurement), `MeasurementRunner.run` appends exactly 8 records, one
    per channel, with indices `0,...,7` in strictly increasing order, and
    every appended record is preceded in the trace by the resolution of
    that channel's select and measure steps. -/
theorem run_appends_exactly_eight_rows (env : Env) (cfg : Config)
    (hlim : 8 ≤ cfg.limits.length)
    (hdc : cfg.use_meas_once = true ∨ env.configureDcOutcome = none)
    (hcl : ∀ i, i < 8 → ∀ e, env.configLimitsOutcome i ≠ .otherExc e)
    (hm : ∀ i, i < 8 → ∀ e, env.measureOutcome i ≠ .otherExc e) :
    (MeasurementRunner.run env cfg).rows.map Row.index = List.range 8 ∧
    ∀ pre r post,
      (MeasurementRunner.run env cfg).events
        = pre ++ Event.rowAppended r :: post →
      Event.selectResolved r.index ∈ pre ∧
      ∃ v, Event.measureResolved r.index v ∈ pre := by
  constructor
  · rw [run_rows_eq env cfg hdc (chanOk_of_bounds env cfg hlim hcl hm),
      List.map_map]
    have hcomp : Row.index ∘ visitRow env cfg = id :=
      funext (visitRow_index env cfg)
    rw [hcomp, List.map_id]
  · intro pre r post hsplit
    have hg := run_events_guarded env cfg pre r post hsplit
    simpa using hg

theorem run_appends_exactly_eight_rows_witness :
    (MeasurementRunner.run envOk cfg8).rows.map Row.index = List.range 8 :=
  (run_appends_exactly_eight_rows envOk cfg8 (by simp [cfg8])
    (Or.inr rfl) (fun i _ e h => by simp [envOk] at h)
    (fun i _ e h => by simp [envOk] at h)).1

theorem visit_ok_row_shape (env : Env) (cfg : Config) (i : Nat) (r : Row)
    (evs : List Event) (h : visit env cfg i = .ok r evs) :
    r.result = passCheck r.lower r.upper r.value ∧
    r.error = rowError r.result r.value ∧ r.index = i := by
  unfold visit at h
  rcases hl : cfg.limits.get? i with _ | ⟨lo, up⟩ <;> rw [hl] at h
  · exact absurd h (by simp)
  · rcases hco : (if cfg.use_inst_limits then env.configLimitsOutcome i
        else StepOutcome.ok) with _ | m | m <;> simp only [hco] at h
    · rcases hmo : env.measureOutcome i with v | ex | ex <;>
        simp only [hmo] at h
      · obtain ⟨hr, _⟩ := VisitResult.ok.inj h
        subst hr
        exact ⟨rfl, rfl, rfl⟩
      · obtain ⟨hr, _⟩ := VisitResult.ok.inj h
        subst hr
        exact ⟨rfl, rfl, rfl⟩
      · exact absurd h (by simp)
    · rcases hmo : env.measureOutcome i with v | ex | ex <;>
        simp only [hmo] at h
      · obtain ⟨hr, _⟩ := VisitResult.ok.inj h
        subst hr
        exact ⟨rfl, rfl, rfl⟩
      · obtain ⟨hr, _⟩ := VisitResult.ok.inj h
        subst hr
        exact ⟨rfl, rfl, rfl⟩
      · exact absurd h (by simp)
    · exact absurd h (by simp)

/-- C2: every recorded row's `passed` flag is the inclusive bounds check
    `lower <= value <= upper` when the value is a real number, and is
    `false` unconditionally when the value is NaN — even for the bounds
    `(-inf, inf)` — in which case the record carries the error marker
    `"NaN"`. -/
theorem recorded_passed_flag (env : Env) (cfg : Config) (i : Nat) (r : Row)
    (evs : List Event) (h : visit env cfg i = .ok r evs) :
    r.result = passCheck r.lower r.upper r.value ∧
    (∀ q : ℚ, r.value = .num q →
      r.result = (fle r.lower r.value && fle r.value r.upper)) ∧
    (r.value = .nan → r.result = false ∧ r.error = some "NaN") ∧
    (∀ lower upper, passCheck lower upper .nan = false) ∧
    passCheck .negInf .posInf .nan = false ∧
    (∀ l u : ℚ, l ≤ u → passCheck (.num l) (.num u) (.num l) = true ∧
      passCheck (.num l) (.num u) (.num u) = true) := by
  obtain ⟨h1, h2, _⟩ := visit_ok_row_shape env cfg i r evs h
  refine ⟨h1, ?_, ?_, ?_, ?_, ?_⟩
  · intro q hq
    rw [h1, hq]
    simp [passCheck, FVal.isNan]
  · intro hv
    constructor
    · rw [h1, hv]
      simp [passCheck, FVal.isNan]
    · rw [h2, h1, hv]
      simp [passCheck, rowError, FVal.isNan]
  · intro lower upper
    simp [passCheck, FVal.isNan]
  · simp [passCheck, FVal.isNan]
  · intro l u hlu
    constructor <;> simp [passCheck, FVal.isNan, fle, hlu]

theorem recorded_passed_flag_witness :
    rowOkW.result = passCheck rowOkW.lower rowOkW.upper rowOkW.value :=
  (recorded_passed_flag envOk cfg8 0 rowOkW evsOkW (by rfl)).1

theorem visitRow_measure_congr (env env2 : Env) (cfg : Config) (j : Nat)
    (h : env2.measureOutcome j = env.measureOutcome j) :
    visitRow env2 cfg j = visitRow env cfg j := by
  unfold visitRow visitValue
  rw [h]

theorem withMeasFail_chanOk (env : Env) (cfg : Config) (i : Nat)
    (ex : String) (j : Nat) (hj : chanOk env cfg j) :
    chanOk (env.withMeasFail i ex) cfg j := by
  obtain ⟨hl, hc, hm⟩ := hj
  refine ⟨hl, hc, ?_⟩
  intro e
  unfold Env.withMeasFail
  simp only
  by_cases hji : j = i
  · subst hji
    rw [Function.update_same]
    intro h
    exact MeasOutcome.noConfusion h
  · rw [Function.update_noteq hji]
    exact hm e

/-- C3: when the measurement of channel `i` raises a `DmmError`, the run
    emits an error notification, records channel `i` with value NaN,
    `passed = false` and error marker `"NaN"`, still visits and records
    all 8 channels in order, and leaves every other channel's record
    exactly as in the run where channel `i`'s measurement succeeds. -/
theorem single_channel_dmm_failure_isolated (env : Env) (cfg : Config)
    (i : Nat) (ex : String) (hi : i < 8)
    (hlim : 8 ≤ cfg.limits.length)
    (hdc : cfg.use_meas_once = true ∨ env.configureDcOutcome = none)
    (hcl : ∀ j, j < 8 → ∀ e, env.configLimitsOutcome j ≠ .otherExc e)
    (hm : ∀ j, j < 8 → ∀ e, env.measureOutcome j ≠ .otherExc e) :
    Event.errorEmit (.measureFailed i ex)
        ∈ (MeasurementRunner.run (env.withMeasFail i ex) cfg).events ∧
    (MeasurementRunner.run (env.withMeasFail i ex) cfg).rows.map Row.index
        = List.range 8 ∧
    (∀ lo up, cfg.limits.get? i = some (lo, up) →
      (MeasurementRunner.run (env.withMeasFail i ex) cfg).rows.get? i
        = some { index := i, value := FVal.nan, lower := lo, upper := up,
                 result := false, error := some "NaN" }) ∧
    (∀ j, j < 8 → j ≠ i →
      (MeasurementRunner.run (env.withMeasFail i ex) cfg).rows.get? j
        = (MeasurementRunner.run env cfg).rows.get? j) := by
  have hchan : ∀ j ∈ List.range 8, chanOk env cfg j :=
    chanOk_of_bounds env cfg hlim hcl hm
  have hchan2 : ∀ j ∈ List.range 8, chanOk (env.withMeasFail i ex) cfg j :=
    fun j hj => withMeasFail_chanOk env cfg i ex j (hchan j hj)
  have hdc2 : cfg.use_meas_once = true ∨
      (env.withMeasFail i ex).configureDcOutcome = none := hdc
  have hrows2 : (MeasurementRunner.run (env.withMeasFail i ex) cfg).rows
      = (List.range 8).map (visitRow (env.withMeasFail i ex) cfg) :=
    run_rows_eq (env.withMeasFail i ex) cfg hdc2 hchan2
  have hrows : (MeasurementRunner.run env cfg).rows
      = (List.range 8).map (visitRow env cfg) :=
    run_rows_eq env cfg hdc hchan
  have hupd : (env.withMeasFail i ex).measureOutcome i
      = MeasOutcome.dmmErr ex := by
    unfold Env.withMeasFail
    simp only
    rw [Function.update_same]
  refine ⟨?_, ?_, ?_, ?_⟩
  · refine run_event_mem (env.withMeasFail i ex) cfg hdc2 hchan2 i
      (List.mem_range.mpr hi) _ ?_
    unfold visitEvs measErrEvents
    rw [hupd]
    simp
  · rw [hrows2, List.map_map]
    have hcomp : Row.index ∘ visitRow (env.withMeasFail i ex) cfg = id :=
      funext (visitRow_index (env.withMeasFail i ex) cfg)
    rw [hcomp, List.map_id]
  · intro lo up hl
    rw [hrows2, List.get?_map, List.get?_range hi]
    simp only [Option.map_some']
    unfold visitRow visitValue
    rw [hl, hupd]
    simp [passCheck, rowError, FVal.isNan]
  · intro j hj hji
    rw [hrows2, hrows, List.get?_map, List.get?_map,
      List.get?_range hj]
    simp only [Option.map_some']
    have hcongr : visitRow (env.withMeasFail i ex) cfg j
        = visitRow env cfg j := by
      refine visitRow_measure_congr env _ cfg j ?_
      unfold Env.withMeasFail
      simp only
      rw [Function.update_noteq hji]
    rw [hcongr]

theorem single_channel_dmm_failure_isolated_witness :
    Event.errorEmit (.measureFailed 5 "timeout")
      ∈ (MeasurementRunner.run (envOk.withMeasFail 5 "timeout") cfg8).events :=
  (single_channel_dmm_failure_isolated envOk cfg8 5 "timeout" (by decide)
    (by simp [cfg8]) (Or.inr rfl)
    (fun j _ e h => by simp [envOk] at h)
    (fun j _ e h => by simp [envOk] at h)).1

theorem visit_configLimits_ext (env : Env) (f : Nat → StepOutcome)
    (cfg : Config) (i : Nat)
    (h1 : ∀ e, env.configLimitsOutcome i ≠ .otherExc e)
    (h2 : ∀ e, f i ≠ .otherExc e) :
    visit (env.withConfigLimits f) cfg i = visit env cfg i := by
  have hsel : (env.withConfigLimits f).selectOutcome = env.selectOutcome := rfl
  have hmea : (env.withConfigLimits f).measureOutcome
      = env.measureOutcome := rfl
  have hclf : (env.withConfigLimits f).configLimitsOutcome = f := rfl
  unfold visit selEvents
  rw [hsel, hmea, hclf]
  cases hui : cfg.use_inst_limits
  · simp only [hui, Bool.false_eq_true, if_false]
  · simp only [hui, if_true]

theorem runChannels_configLimits_ext (env : Env) (f : Nat → StepOutcome)
    (cfg : Config) (l : List Nat)
    (h : ∀ i ∈ l, (∀ e, env.configLimitsOutcome i ≠ .otherExc e) ∧
      (∀ e, f i ≠ .otherExc e)) :
    runChannels (env.withConfigLimits f) cfg l = runChannels env cfg l := by
  induction l with
  | nil => rfl
  | cons i l ih =>
    obtain ⟨hi1, hi2⟩ := h i (List.mem_cons_self i l)
    have hv := visit_configLimits_ext env f cfg i hi1 hi2
    have ihl := ih (fun j hj => h j (List.mem_cons_of_mem i hj))
    unfold runChannels
    rw [hv, ihl]

/-- C5: a device-side limit-configuration failure (a `DmmError` from
    `configure_limits`) never changes the run's outcome: replacing the
    per-channel `configure_limits` behaviour by any other behaviour that
    also raises at most `DmmError` yields an identical run — the same
    rows, the same `passed` values, the same trace, no abort. -/
theorem inst_limits_noninterference (env : Env) (f : Nat → StepOutcome)
    (cfg : Config)
    (h1 : ∀ i, i < 8 → ∀ e, env.configLimitsOutcome i ≠ .otherExc e)
    (h2 : ∀ i, i < 8 → ∀ e, f i ≠ .otherExc e) :
    MeasurementRunner.run (env.withConfigLimits f) cfg
      = MeasurementRunner.run env cfg := by
  have hrc : runChannels (env.withConfigLimits f) cfg (List.range 8)
      = runChannels env cfg (List.range 8) := by
    refine runChannels_configLimits_ext env f cfg (List.range 8) ?_
    intro i hi
    have hi8 := List.mem_range.mp hi
    exact ⟨h1 i hi8, h2 i hi8⟩
  have hf1 : (env.withConfigLimits f).configureDcOutcome
      = env.configureDcOutcome := rfl
  have hf2 : (env.withConfigLimits f).saveCsvOutcome
      = env.saveCsvOutcome := rfl
  unfold MeasurementRunner.run
  rw [hrc, hf1, hf2]

theorem inst_limits_noninterference_witness :
    MeasurementRunner.run
        (envOk.withConfigLimits (fun _ => .dmmErr "CALC:LIM refused")) cfg8
      = MeasurementRunner.run envOk cfg8 :=
  inst_limits_noninterference envOk (fun _ => .dmmErr "CALC:LIM refused")
    cfg8 (fun i _ e h => by simp [envOk] at h)
    (fun i _ e h => StepOutcome.noConfusion h)

/-! Relay selection, cleanup, device query and table-limit claims. -/

/-- C6: for every index in 0..7, `select_index` succeeds, sets the
    lines to the bits `(A,B,C) = (i&1, (i>>1)&1, (i>>2)&1)` with A the
    least significant line, and reconstructing `A + 2*B + 4*C` from the
    states it set yields `i` back. -/
theorem select_index_bits_roundtrip (st : LineStates) (i : Int)
    (h0 : 0 ≤ i) (h7 : i ≤ 7) :
    ∃ st2 : LineStates, select_index st i = (st2, none) ∧
      st2.a = decide ((i.toNat >>> 0) &&& 1 = 1) ∧
      st2.b = decide ((i.toNat >>> 1) &&& 1 = 1) ∧
      st2.c = decide ((i.toNat >>> 2) &&& 1 = 1) ∧
      st2.reconstruct = i := by
  interval_cases i <;>
    exact ⟨_, rfl, by decide, by decide, by decide, by decide⟩

theorem select_index_bits_roundtrip_witness :
    ∃ st2 : LineStates,
      select_index ⟨false, false, false⟩ 5 = (st2, none) ∧
      st2.a = decide (((5 : Int).toNat >>> 0) &&& 1 = 1) ∧
      st2.b = decide (((5 : Int).toNat >>> 1) &&& 1 = 1) ∧
      st2.c = decide (((5 : Int).toNat >>> 2) &&& 1 = 1) ∧
      st2.reconstruct = 5 :=
  select_index_bits_roundtrip ⟨false, false, false⟩ 5 (by decide) (by decide)

/-- C7: for every integer outside 0..7, `select_index` raises and leaves
    every line state untouched; the line-setting step (error component
    `none`) is reached exactly for indices inside 0..7. -/
theorem select_index_out_of_range (st : LineStates) (i : Int)
    (h : i < 0 ∨ 7 < i) :
    select_index st i = (st, some "index must be in 0..7") ∧
    (∀ (b : LineStates) (j : Int), 0 ≤ j → j ≤ 7 →
      (select_index b j).2 = none) := by
  constructor
  · unfold select_index
    rw [if_pos (show ¬ (0 ≤ i ∧ i ≤ 7) by omega)]
  · intro b j hj0 hj7
    unfold select_index
    rw [if_neg (not_not_intro ⟨hj0, hj7⟩)]

theorem select_index_out_of_range_witness :
    select_index ⟨false, false, false⟩ 8
      = (⟨false, false, false⟩, some "index must be in 0..7") :=
  (select_index_out_of_range ⟨false, false, false⟩ 8
    (Or.inr (by decide))).1

/-- C8: on every exit path of `MeasurementRunner.run` — normal
    completion, caught per-channel failure, or an unrecoverable fault —
    both the DMM and the relay are asked to close; `DmmClient.close` and
    `RelayController.close` are total (they swallow the underlying close
    call's exception), idempotent, and the DMM close's result does not
    depend on whether the socket close raised. -/
theorem cleanup_on_every_exit_path :
    (∀ (env : Env) (cfg : Config),
      Event.dmmCloseAttempt ∈ (MeasurementRunner.run env cfg).events ∧
      Event.relayCloseAttempt ∈ (MeasurementRunner.run env cfg).events) ∧
    (∀ (r : Bool) (s : Option Unit),
      DmmClient.close r (DmmClient.close r s) = DmmClient.close r s) ∧
    (∀ (r r2 : Bool) (s : Option Unit),
      DmmClient.close r s = DmmClient.close r2 s) ∧
    (∀ (r : Bool) (st : RelayConn),
      RelayController.close r (RelayController.close r st)
        = RelayController.close r st) := by
  refine ⟨?_, ?_, ?_, ?_⟩
  · intro env cfg
    constructor <;> · unfold MeasurementRunner.run; simp
  · intro r s
    cases s <;> cases r <;> rfl
  · intro r r2 s
    cases s <;> cases r <;> cases r2 <;> rfl
  · intro r st
    rcases st with ⟨sim, ch⟩
    cases sim <;> cases ch <;> cases r <;> rfl

theorem and_pow_ne_zero (n i : Nat) :
    decide (n &&& 2 ^ i ≠ 0) = n.testBit i := by
  rw [Nat.and_two_pow]
  cases h : n.testBit i <;> simp [h, Nat.pos_iff_ne_zero, pow_ne_zero]

/-- C4: contrary to the claim, `query_limit_fail` never returns a
    boolean: `DmmClient` defines no method named `query`, so the primary
    attempt raises `AttributeError` (caught), and the fallback's own
    `self.query` call raises `AttributeError` outside any handler.  The
    intended fallback logic (modelled separately) would return the
    bit-11/12 test and never propagate the primary failure. -/
theorem query_limit_fail_always_raises :
    query_limit_fail = .error
      "AttributeError: DmmClient object has no attribute query" ∧
    (∀ b : Bool, query_limit_fail ≠ .ok b) ∧
    (∀ e c, query_limit_fail_intended (.error e) (.ok c)
      = .ok ((c.toNat).testBit 11 || (c.toNat).testBit 12)) ∧
    (∀ e1 e2 c, query_limit_fail_intended (.error e1) c
      = query_limit_fail_intended (.error e2) c) := by
  refine ⟨rfl, ?_, ?_, ?_⟩
  · intro b h
    have h2 : query_limit_fail = Except.error
        "AttributeError: DmmClient object has no attribute query" := rfl
    rw [h2] at h
    exact Except.noConfusion h
  · intro e c
    show Except.ok _ = _
    rw [← and_pow_ne_zero c.toNat 11, ← and_pow_ne_zero c.toNat 12]
    norm_num
  · intro e1 e2 c
    cases c <;> rfl

/-- C10: when either bound cell of a table row fails to parse as a
    float, `limits_from_table` silently substitutes `(-inf, inf)` for
    that channel, and any non-NaN value passes against those bounds. -/
theorem limits_from_table_unparsable_cell (cellLow cellUp : Nat → Option FVal)
    (i : Nat) (hi : i < 8) (h : cellLow i = none ∨ cellUp i = none) :
    (limits_from_table cellLow cellUp).get? i
      = some (FVal.negInf, FVal.posInf) ∧
    (∀ v : FVal, v.isNan = false →
      passCheck FVal.negInf FVal.posInf v = true) := by
  constructor
  · unfold limits_from_table
    rw [List.get?_map, List.get?_range hi]
    simp only [Option.map_some']
    rcases h with h | h
    · rw [h]
    · rw [h]
      cases cellLow i <;> rfl
  · intro v hv
    cases v <;> simp [passCheck, fle, FVal.isNan] at hv ⊢

theorem limits_from_table_unparsable_cell_witness :
    (limits_from_table (fun _ => none) (fun _ => some (.num 1))).get? 3
      = some (FVal.negInf, FVal.posInf) :=
  (limits_from_table_unparsable_cell (fun _ => none)
    (fun _ => some (.num 1)) 3 (by decide) (Or.inl rfl)).1

/-! Statistics lemmas for the persisted summary. -/

theorem allRats_of_fin (vs : List FVal)
    (h : ∀ v ∈ vs, ∃ q : ℚ, v = FVal.num q) :
    allRats vs = some (vs.filterMap FVal.toRat?) ∧
    (vs.filterMap FVal.toRat?).length = vs.length := by
  induction vs with
  | nil => exact ⟨rfl, rfl⟩
  | cons v vs ih =>
    obtain ⟨q, rfl⟩ := h v (List.mem_cons_self v vs)
    obtain ⟨ih1, ih2⟩ := ih (fun w hw => h w (List.mem_cons_of_mem _ hw))
    constructor
    · simp [allRats, ih1, FVal.toRat?, List.filterMap_cons]
    · simp [List.filterMap_cons, FVal.toRat?, ih2]

theorem nonNanRats_eq (rows : List Row) :
    nonNanRats rows = (summaryValues rows).filterMap FVal.toRat? := by
  unfold nonNanRats summaryValues
  induction rows with
  | nil => rfl
  | cons r rows ih =>
    rw [List.filterMap_cons, List.filterMap_cons]
    cases hv : r.value <;>
      (simp [hv, FVal.isNan, FVal.toRat?, List.filterMap_cons] at ih ⊢ <;>
        try exact ih)

theorem summaryFail_eq_countP (rows : List Row) :
    summaryFail rows = List.countP (fun r => !r.result) rows := by
  unfold summaryFail
  induction rows with
  | nil => rfl
  | cons r rows ih =>
    rw [List.map_cons, List.sum_cons, List.countP_cons, ih]
    cases hr : r.result <;> simp [hr] <;> omega

theorem sum_sq_expand (μ : ℚ) (qs : List ℚ) :
    (qs.map (fun x => (x - μ) ^ 2)).sum
      = (qs.map (fun x => x ^ 2)).sum - 2 * μ * qs.sum
          + (qs.length : ℚ) * μ ^ 2 := by
  induction qs with
  | nil => simp
  | cons x qs ih =>
    simp only [List.map_cons, List.sum_cons, ih, List.length_cons]
    push_cast
    ring

theorem pvariance_eq_specPopVar (qs : List ℚ) (h : qs ≠ []) :
    ((qs.map (fun x => (x - qs.sum / qs.length) ^ 2)).sum) / qs.length
      = (qs.map (fun x => x ^ 2)).sum / qs.length
          - (qs.sum / qs.length) ^ 2 := by
  have hn : (qs.length : ℚ) ≠ 0 := by
    have : qs.length ≠ 0 := by simpa [List.length_eq_zero] using h
    exact_mod_cast this
  rw [sum_sq_expand]
  field_simp
  ring

theorem pvariance_nonneg (qs : List ℚ) :
    0 ≤ ((qs.map (fun x => (x - qs.sum / qs.length) ^ 2)).sum)
          / (qs.length : ℚ) := by
  apply div_nonneg
  · apply List.sum_nonneg
    intro x hx
    obtain ⟨y, _, rfl⟩ := List.mem_map.mp hx
    exact sq_nonneg _
  · exact Nat.cast_nonneg _

/-- C9: over rows whose non-NaN values are finite, the persisted
    summary's Fail row counts the rows whose `passed` flag is false, the
    Average row is the arithmetic mean of the non-NaN recorded values,
    the Std Dev row (reported via its square, the variance) is their
    population standard deviation (square root of `E[x^2] - mean^2`),
    and Max, Min, Average and Std Dev are all blank when zero non-NaN
    values exist. -/
theorem summary_statistics (rows : List Row)
    (hfin : ∀ v ∈ summaryValues rows, ∃ q : ℚ, v = FVal.num q) :
    summaryFail rows = List.countP (fun r => !r.result) rows ∧
    summaryAvg rows = .ok (if (summaryValues rows).isEmpty then none
      else some (specMean (nonNanRats rows))) ∧
    summaryStdSq rows = .ok (if (summaryValues rows).isEmpty then none
      else some (specPopVar (nonNanRats rows))) ∧
    (∀ sq : ℚ, summaryStdSq rows = .ok (some sq) →
      0 ≤ sq ∧ Real.sqrt sq = Real.sqrt (specPopVar (nonNanRats rows))) ∧
    (summaryValues rows = [] →
      summaryMax rows = none ∧ summaryMin rows = none ∧
      summaryAvg rows = .ok none ∧ summaryStdSq rows = .ok none) := by
  obtain ⟨hall, hlen⟩ := allRats_of_fin (summaryValues rows) hfin
  have hnn := nonNanRats_eq rows
  have hne : ¬ (summaryValues rows).isEmpty = true →
      (summaryValues rows).filterMap FVal.toRat? ≠ [] := by
    intro he h0
    apply he
    have h1 : (summaryValues rows).length = 0 := by
      rw [← hlen, h0]
      rfl
    simpa [List.isEmpty_iff_length_eq_zero] using h1
  have hAvg : summaryAvg rows
      = .ok (if (summaryValues rows).isEmpty then none
        else some (specMean (nonNanRats rows))) := by
    unfold summaryAvg pyMean
    by_cases he : (summaryValues rows).isEmpty = true
    · simp only [if_pos he]
    · simp only [if_neg he]
      rw [hall, hnn]
      rfl
  have hStd : summaryStdSq rows
      = .ok (if (summaryValues rows).isEmpty then none
        else some (specPopVar (nonNanRats rows))) := by
    unfold summaryStdSq pyPVariance
    by_cases he : (summaryValues rows).isEmpty = true
    · simp only [if_pos he]
    · simp only [if_neg he]
      rw [hall, hnn]
      show Except.ok (some _) = Except.ok (some _)
      rw [pvariance_eq_specPopVar _ (hne he)]
      rfl
  refine ⟨summaryFail_eq_countP rows, hAvg, hStd, ?_, ?_⟩
  · intro sq hsq
    rw [hStd] at hsq
    by_cases he : (summaryValues rows).isEmpty = true
    · rw [if_pos he] at hsq
      exact absurd (Except.ok.inj hsq) (by simp)
    · rw [if_neg he] at hsq
      have hval := Option.some.inj (Except.ok.inj hsq)
      subst hval
      refine ⟨?_, rfl⟩
      rw [hnn]
      unfold specPopVar
      rw [← pvariance_eq_specPopVar _ (hne he)]
      exact pvariance_nonneg _
  · intro h0
    have he : (summaryValues rows).isEmpty = true := by simp [h0]
    refine ⟨?_, ?_, ?_, ?_⟩
    · unfold summaryMax
      rw [h0]
    · unfold summaryMin
      rw [h0]
    · rw [hAvg, if_pos he]
    · rw [hStd, if_pos he]

theorem summary_statistics_witness :
    summaryFail rowsW = List.countP (fun r => !r.result) rowsW :=
  (summary_statistics rowsW (fun v hv => by
    have h2 : v = FVal.num 3 ∨ v = FVal.num 5 := by
      simpa [summaryValues, rowsW, FVal.isNan] using hv
    rcases h2 with rfl | rfl
    · exact ⟨3, rfl⟩
    · exact ⟨5, rfl⟩)).1
